import Mathlib

/-!
Verification of the sniprun execution core against its specification.

Strings are modelled as `List Char`, byte streams as `List Nat`, machine
integers as `Int`/`Nat`.  Rust functions are shallowly embedded as Lean
functions; operations that can panic (`unwrap`/`expect`) are embedded as
`Option`-valued functions where `none` models a panic of the invoking
thread.  The filesystem is modelled as an association list from
component paths to entries, enough to give `std::fs::remove_dir_all`,
`std::fs::create_dir_all` and file writes their observable semantics.
-/

namespace Sniprun

instance {ε α : Type} [DecidableEq ε] [DecidableEq α] : DecidableEq (Except ε α) := fun a b =>
  match a, b with
  | Except.ok x, Except.ok y =>
      if h : x = y then Decidable.isTrue (congrArg Except.ok h)
      else Decidable.isFalse (fun hh => h (Except.ok.inj hh))
  | Except.error x, Except.error y =>
      if h : x = y then Decidable.isTrue (congrArg Except.error h)
      else Decidable.isFalse (fun hh => h (Except.error.inj hh))
  | Except.ok _, Except.error _ => Decidable.isFalse (fun hh => Except.noConfusion hh)
  | Except.error _, Except.ok _ => Decidable.isFalse (fun hh => Except.noConfusion hh)

/-- The double-quote character. -/
def dq : Char := '\"'

/-- The backslash character. -/
def bs : Char := '\\'

/-- Strings are lists of characters. -/
abbrev Str := List Char

/-- Modelled from the spec: the `SupportLevel` enumeration lives in
`src/interpreter.rs`, which is not among the provided sources.  The spec
describes it as a small totally ordered enumeration with
"line only" < "block" < higher levels requiring full-file or project
context; `Rust_original.rs` references the `Line` and `Bloc` members. -/
inductive SupportLevel
  | Unsupported
  | Line
  | Bloc
  | Import
  | File
  | Project
deriving DecidableEq

/-- Numeric rank realising the total order on support levels. -/
def SupportLevel.toNat : SupportLevel → Nat
  | .Unsupported => 0
  | .Line => 1
  | .Bloc => 2
  | .Import => 3
  | .File => 4
  | .Project => 5

instance : LE SupportLevel := ⟨fun a b => a.toNat ≤ b.toNat⟩

instance (a b : SupportLevel) : Decidable (a ≤ b) :=
  inferInstanceAs (Decidable (a.toNat ≤ b.toNat))

/-- Modelled from the spec: the error taxonomy lives in `src/error.rs`,
which is not among the provided sources.  The spec gives a closed
taxonomy of UnsupportedLanguage / CompilationError / RuntimeError (the
implicit InternalFailure class is a panic, modelled as `Option.none`). -/
inductive SniprunError
  | UnsupportedLanguage (filetype : Str)
  | CompilationError (msg : Str)
  | RuntimeError (msg : Str)
deriving DecidableEq

/-- `DataHolder` from `src/main.rs`: the request context captured per
invocation.  `range : [i64; 2]` is modelled as a pair of `Int`. -/
structure DataHolder where
  filetype : Str
  current_line : Str
  current_bloc : Str
  range : Int × Int
  filepath : Str
  projectroot : Str
  dependencies_path : List Str
  work_dir : Str
  sniprun_root_dir : Str
deriving DecidableEq

/-- `Rust_original` from `src/interpreters/Rust_original.rs`. -/
structure Rust_original where
  support_level : SupportLevel
  data : DataHolder
  code : Str
  rust_work_dir : Str
  bin_path : Str
  main_file_path : Str
deriving DecidableEq

/-- `Rust_original::get_supported_languages`. -/
def get_supported_languages : List Str :=
  ["rust".toList, "rust-lang".toList, "rs".toList]

/-- `Rust_original::get_max_support_level`. -/
def get_max_support_level : SupportLevel := SupportLevel.Bloc

/-- `Rust_original::new_with_level`: derives the working subdirectory
`work_dir ++ "/rust_original"`, the staged file path `…/main.rs` and the
binary path (the staged file path with the last three characters, the
`.rs` extension, removed).  The `DirBuilder` side effect creates that
directory recursively; the path computation is what the claims are
about. -/
def new_with_level (data : DataHolder) (support_level : SupportLevel) : Rust_original :=
  let rwd := data.work_dir ++ "/rust_original".toList
  let mfp := rwd ++ "/main.rs".toList
  let bp := mfp.take (mfp.length - 3)
  { support_level := support_level
    data := data
    code := []
    rust_work_dir := rwd
    bin_path := bp
    main_file_path := mfp }

/-- Rust `str::replace` with a `&[char]` pattern (used by `fetch_code`
on the bloc): every character belonging to the class is replaced by the
replacement string. -/
def replaceCharClass (cs rep : List Char) : Str → Str
  | [] => []
  | c :: rest =>
    if cs.contains c then rep ++ replaceCharClass cs rep rest
    else c :: replaceCharClass cs rep rest

/-- Worker for Rust `str::replace` with a string pattern: leftmost-first,
non-overlapping.  `skip` counts characters of an already-matched pattern
occurrence that must still be consumed without being copied. -/
def replaceGo (pat rep : List Char) : Str → Nat → Str
  | [], _ => []
  | _ :: rest, n + 1 => replaceGo pat rep rest n
  | c :: rest, 0 =>
    if pat ≠ [] ∧ pat.isPrefixOf (c :: rest) then
      rep ++ replaceGo pat rep rest (pat.length - 1)
    else
      c :: replaceGo pat rep rest 0

/-- Rust `str::replace` with a (non-empty) string pattern. -/
def replaceList (pat rep s : Str) : Str := replaceGo pat rep s 0

/-- The four whitespace characters stripped by `fetch_code`'s bloc test. -/
def blocWsChars : List Char := [' ', '\t', '\n', '\r']

/-- `Rust_original::fetch_code`: stage the bloc if its text with
`[' ','\t','\n','\r']` removed is non-empty and the level is at least
`Bloc`; else stage the line if its text with `" "` removed is non-empty
and the level is at least `Line`; else stage the empty string.  Always
returns `Ok`. -/
def fetch_code (i : Rust_original) : Except SniprunError Rust_original :=
  if (replaceCharClass blocWsChars [] i.data.current_bloc).isEmpty = false
      ∧ SupportLevel.Bloc ≤ i.support_level then
    .ok { i with code := i.data.current_bloc }
  else if (replaceList [' '] [] i.data.current_line).isEmpty = false
      ∧ SupportLevel.Line ≤ i.support_level then
    .ok { i with code := i.data.current_line }
  else
    .ok { i with code := [] }

/-- `Rust_original::add_boilerplate`: wrap the staged code in
`fn main() \x7b … \x7d`.  Always returns `Ok`. -/
def add_boilerplate (i : Rust_original) : Except SniprunError Rust_original :=
  .ok { i with code := "fn main() \x7b".toList ++ i.code ++ "\x7d".toList }

/-- The staging rule exactly as claim C1 words it: both emptiness tests
strip all whitespace (the same four-character class). -/
def fetch_code_claimed (d : DataHolder) (lvl : SupportLevel) : Str :=
  if d.current_bloc.filter (fun c => !(blocWsChars.contains c)) ≠ []
      ∧ SupportLevel.Bloc ≤ lvl then d.current_bloc
  else if d.current_line.filter (fun c => !(blocWsChars.contains c)) ≠ []
      ∧ SupportLevel.Line ≤ lvl then d.current_line
  else []

/-- A non-empty list has `isEmpty = false`. -/
theorem isEmpty_false_of_ne_nil {l : Str} (h : l ≠ []) : l.isEmpty = false := by
  cases l with
  | nil => exact absurd rfl h
  | cons a t => rfl

/-- A list with `isEmpty = false` is non-empty. -/
theorem ne_nil_of_isEmpty_false {l : Str} (h : l.isEmpty = false) : l ≠ [] := by
  cases l with
  | nil => simp [List.isEmpty] at h
  | cons a t => simp

/-- Removing a character class equals filtering it out. -/
theorem replaceCharClass_nil_eq_filter (cs : List Char) (s : Str) :
    replaceCharClass cs [] s = s.filter (fun c => !(cs.contains c)) := by
  induction s with
  | nil => rfl
  | cons c rest ih =>
    by_cases h : c ∈ cs <;>
      simp [replaceCharClass, h, ih, List.filter_cons]

/-- Removing a single-character pattern equals filtering it out. -/
theorem replaceList_single_nil_eq_filter (c0 : Char) (s : Str) :
    replaceList [c0] [] s = s.filter (fun c => !(c == c0)) := by
  induction s with
  | nil => rfl
  | cons c rest ih =>
    by_cases h : c = c0
    · subst h
      simp only [replaceList, replaceGo, List.isPrefixOf, List.filter_cons] at ih ⊢
      simp [ih]
    · have h2 : ¬(c0 = c) := fun hh => h hh.symm
      simp only [replaceList, replaceGo, List.isPrefixOf, List.filter_cons] at ih ⊢
      simp [h, h2, ih]

/-- A request context staging a tab-only line: the bloc is empty and the
current line is a single tab character. -/
def dTab : DataHolder :=
  ⟨"rust".toList, ['\t'], [], (1, 1), [], [], [], "/cache/sniprun".toList, []⟩

/-- The `Rust_original` instance built from `dTab` at level `Bloc`. -/
def iTab : Rust_original := new_with_level dTab SupportLevel.Bloc

/-- C1 counterexample: on a line consisting of one tab character (and an
empty bloc), the claim's rule stages the empty string — the tab is
whitespace — but `fetch_code` stages the tab itself, because the code's
line test removes only spaces, not all whitespace. -/
theorem fetch_code_whitespace_counterexample :
    fetch_code_claimed dTab SupportLevel.Bloc = []
    ∧ fetch_code iTab = Except.ok { iTab with code := ['\t'] }
    ∧ fetch_code iTab ≠ Except.ok { iTab with code := fetch_code_claimed dTab SupportLevel.Bloc } := by
  refine ⟨by decide, by decide, by decide⟩

/-- C1 (amended): `fetch_code` stages text by the fixed precedence rule —
bloc first (its test strips the four whitespace characters), then line
(its test strips only space characters, so a tab-only line counts as
non-empty), else the empty string — and always returns success. -/
theorem fetch_code_staging_rule (d : DataHolder) (lvl : SupportLevel) :
    fetch_code (new_with_level d lvl) = Except.ok
      { new_with_level d lvl with code :=
          if d.current_bloc.filter (fun c => !(blocWsChars.contains c)) ≠ []
              ∧ SupportLevel.Bloc ≤ lvl then d.current_bloc
          else if d.current_line.filter (fun c => !(c == ' ')) ≠ []
              ∧ SupportLevel.Line ≤ lvl then d.current_line
          else [] } := by
  have hb : (new_with_level d lvl).data = d := rfl
  have hl : (new_with_level d lvl).support_level = lvl := rfl
  unfold fetch_code
  rw [hb, hl, replaceCharClass_nil_eq_filter, replaceList_single_nil_eq_filter]
  by_cases h1 : d.current_bloc.filter (fun c => !(blocWsChars.contains c)) ≠ []
      ∧ SupportLevel.Bloc ≤ lvl
  · rw [if_pos ⟨isEmpty_false_of_ne_nil h1.1, h1.2⟩, if_pos h1]; rfl
  · rw [if_neg (fun hc => h1 ⟨ne_nil_of_isEmpty_false hc.1, hc.2⟩), if_neg h1]
    by_cases h2 : d.current_line.filter (fun c => !(c == ' ')) ≠ []
        ∧ SupportLevel.Line ≤ lvl
    · rw [if_pos ⟨isEmpty_false_of_ne_nil h2.1, h2.2⟩, if_pos h2]; rfl
    · rw [if_neg (fun hc => h2 ⟨ne_nil_of_isEmpty_false hc.1, hc.2⟩), if_neg h2]; rfl

/-- A second request context sharing `dTab`'s cache directory but
representing a distinct invocation (different captured line). -/
def dTab2 : DataHolder :=
  ⟨"rust".toList, "1+1".toList, [], (4, 7), [], [], [], "/cache/sniprun".toList, []⟩

/-- C3 counterexample: two distinct invocations constructing
`Rust_original` instances from the same shared cache directory receive
the *same* working subdirectory, staged source path and binary path —
they are not disjoint. -/
theorem new_with_level_shared_paths_counterexample :
    dTab ≠ dTab2
    ∧ (new_with_level dTab SupportLevel.Bloc).rust_work_dir
        = (new_with_level dTab2 SupportLevel.Bloc).rust_work_dir
    ∧ (new_with_level dTab SupportLevel.Bloc).main_file_path
        = (new_with_level dTab2 SupportLevel.Bloc).main_file_path
    ∧ (new_with_level dTab SupportLevel.Bloc).bin_path
        = (new_with_level dTab2 SupportLevel.Bloc).bin_path := by
  refine ⟨by decide, by decide, by decide, by decide⟩

/-- C3 (amended): the working subdirectory is per backend *type*, not
per invocation: any two `Rust_original` instances constructed from the
same shared cache directory use the same working subdirectory
(`work_dir ++ "/rust_original"`), the same staged source file path and
the same binary path. -/
theorem new_with_level_same_workdir_same_paths
    (d1 d2 : DataHolder) (l1 l2 : SupportLevel)
    (h : d1.work_dir = d2.work_dir) :
    (new_with_level d1 l1).rust_work_dir = (new_with_level d2 l2).rust_work_dir
    ∧ (new_with_level d1 l1).main_file_path = (new_with_level d2 l2).main_file_path
    ∧ (new_with_level d1 l1).bin_path = (new_with_level d2 l2).bin_path
    ∧ (new_with_level d1 l1).rust_work_dir = d1.work_dir ++ "/rust_original".toList := by
  refine ⟨?_, ?_, ?_, rfl⟩ <;> simp [new_with_level, h]

/-- C3 amended-claim witness at two concrete distinct invocations. -/
theorem new_with_level_same_workdir_same_paths_instance :
    (new_with_level dTab SupportLevel.Bloc).rust_work_dir
        = (new_with_level dTab2 SupportLevel.Line).rust_work_dir
    ∧ (new_with_level dTab SupportLevel.Bloc).main_file_path
        = (new_with_level dTab2 SupportLevel.Line).main_file_path
    ∧ (new_with_level dTab SupportLevel.Bloc).bin_path
        = (new_with_level dTab2 SupportLevel.Line).bin_path
    ∧ (new_with_level dTab SupportLevel.Bloc).rust_work_dir
        = dTab.work_dir ++ "/rust_original".toList :=
  new_with_level_same_workdir_same_paths dTab dTab2 SupportLevel.Bloc SupportLevel.Line rfl

/-- The characters for which Rust `char::is_whitespace` returns true
(the Unicode White_Space property), consulted by `str::trim_end`. -/
def rustWhitespace : List Char :=
  ['\t', '\n', '\x0b', '\x0c', '\r', ' ', '\u0085', '\u00A0', '\u1680',
   '\u2000', '\u2001', '\u2002', '\u2003', '\u2004', '\u2005', '\u2006',
   '\u2007', '\u2008', '\u2009', '\u200A', '\u2028', '\u2029', '\u202F',
   '\u205F', '\u3000']

/-- Rust `str::trim_end`: drop trailing whitespace characters. -/
def trimEnd (l : Str) : Str :=
  (l.reverse.dropWhile (fun c => rustWhitespace.contains c)).reverse

/-- `answer_str.replace("\\\"", "\"")` from the Run result formatting. -/
def unescapeQuotes (s : Str) : Str := replaceList [bs, dq] [dq] s

/-- `answer_str.replace("\"", "\\\"")` from the Run result formatting. -/
def escapeQuotes (s : Str) : Str := replaceList [dq] [bs, dq] s

/-- Result formatting from `src/main.rs` (`Messages::Run`, `Ok` branch):
unescape every backslash-quote sequence, re-escape every quote, then
truncate to the length of the string with trailing whitespace trimmed. -/
def formatAnswer (s : Str) : Str :=
  let s2 := escapeQuotes (unescapeQuotes s)
  s2.take (trimEnd s2).length

theorem unescapeQuotes_bs_dq (t : Str) :
    unescapeQuotes (bs :: dq :: t) = dq :: unescapeQuotes t := by
  simp [unescapeQuotes, replaceList, replaceGo, List.isPrefixOf, bs, dq]

theorem unescapeQuotes_bs_nil : unescapeQuotes [bs] = [bs] := rfl

theorem unescapeQuotes_cons_ne (c : Char) (t : Str) (h : c ≠ bs) :
    unescapeQuotes (c :: t) = c :: unescapeQuotes t := by
  have hb : (bs == c) = false := by
    simp only [beq_eq_false_iff_ne, ne_eq]
    exact fun hh => h hh.symm
  simp [unescapeQuotes, replaceList, replaceGo, List.isPrefixOf, hb]

theorem unescapeQuotes_bs_ne (c2 : Char) (t : Str) (h : c2 ≠ dq) :
    unescapeQuotes (bs :: c2 :: t) = bs :: unescapeQuotes (c2 :: t) := by
  have hb : (dq == c2) = false := by
    simp only [beq_eq_false_iff_ne, ne_eq]
    exact fun hh => h hh.symm
  simp [unescapeQuotes, replaceList, replaceGo, List.isPrefixOf, hb]

theorem escapeQuotes_dq (t : Str) :
    escapeQuotes (dq :: t) = bs :: dq :: escapeQuotes t := by
  simp [escapeQuotes, replaceList, replaceGo, List.isPrefixOf, bs, dq]

theorem escapeQuotes_cons_ne (c : Char) (t : Str) (h : c ≠ dq) :
    escapeQuotes (c :: t) = c :: escapeQuotes t := by
  have hb : (dq == c) = false := by
    simp only [beq_eq_false_iff_ne, ne_eq]
    exact fun hh => h hh.symm
  simp [escapeQuotes, replaceList, replaceGo, List.isPrefixOf, hb]

/-- A quote character survives the unescaping pass. -/
theorem dq_mem_unescapeQuotes : ∀ (s : Str), dq ∈ s → dq ∈ unescapeQuotes s
  | [], h => absurd h (List.not_mem_nil dq)
  | c :: t, h => by
    by_cases hc : c = bs
    · subst hc
      cases t with
      | nil =>
        rcases List.mem_cons.mp h with h1 | h1
        · exact absurd h1 (by decide)
        · exact absurd h1 (List.not_mem_nil dq)
      | cons c2 t2 =>
        by_cases h2 : c2 = dq
        · subst h2
          rw [unescapeQuotes_bs_dq]
          exact List.mem_cons_self dq (unescapeQuotes t2)
        · rw [unescapeQuotes_bs_ne c2 t2 h2]
          have hmem : dq ∈ c2 :: t2 := by
            rcases List.mem_cons.mp h with h1 | h1
            · exact absurd h1 (by decide)
            · exact h1
          exact List.mem_cons_of_mem bs (dq_mem_unescapeQuotes (c2 :: t2) hmem)
    · rw [unescapeQuotes_cons_ne c t hc]
      rcases List.mem_cons.mp h with h1 | h1
      · exact List.mem_cons.mpr (Or.inl h1)
      · exact List.mem_cons_of_mem c (dq_mem_unescapeQuotes t h1)

/-- A quote character survives the escaping pass. -/
theorem dq_mem_escapeQuotes : ∀ (s : Str), dq ∈ s → dq ∈ escapeQuotes s
  | [], h => absurd h (List.not_mem_nil dq)
  | c :: t, h => by
    by_cases hc : c = dq
    · subst hc
      rw [escapeQuotes_dq]
      exact List.mem_cons_of_mem bs (List.mem_cons_self dq (escapeQuotes t))
    · rw [escapeQuotes_cons_ne c t hc]
      rcases List.mem_cons.mp h with h1 | h1
      · exact List.mem_cons.mpr (Or.inl h1)
      · exact List.mem_cons_of_mem c (dq_mem_escapeQuotes t h1)

/-- Every quote character in the list is immediately preceded by a
backslash. -/
def escapedQuotes : Str → Bool
  | [] => true
  | [c] => !(c == dq)
  | c :: c2 :: rest =>
    if c == dq then false
    else if c == bs && c2 == dq then escapedQuotes rest
    else escapedQuotes (c2 :: rest)

/-- The escaping pass never produces a leading quote. -/
theorem escapeQuotes_head_ne_dq : ∀ (s : Str), (escapeQuotes s).head? ≠ some dq
  | [] => by simp [escapeQuotes, replaceList, replaceGo]
  | c :: t => by
    by_cases hc : c = dq
    · subst hc
      rw [escapeQuotes_dq]
      simp only [List.head?_cons, Option.some.injEq]
      decide
    · rw [escapeQuotes_cons_ne c t hc]
      simp only [List.head?_cons]
      exact fun hh => hc (Option.some.inj hh)

/-- All quotes in the output of the escaping pass are escaped. -/
theorem escapedQuotes_escapeQuotes : ∀ (s : Str), escapedQuotes (escapeQuotes s) = true
  | [] => rfl
  | c :: t => by
    by_cases hc : c = dq
    · subst hc
      rw [escapeQuotes_dq]
      show escapedQuotes (escapeQuotes t) = true
      exact escapedQuotes_escapeQuotes t
    · rw [escapeQuotes_cons_ne c t hc]
      cases hE : escapeQuotes t with
      | nil =>
        simp [escapedQuotes, beq_eq_false_iff_ne, hc]
      | cons y ys =>
        have hy : y ≠ dq := by
          have hh := escapeQuotes_head_ne_dq t
          rw [hE] at hh
          simpa using hh
        have hcq : (c == dq) = false := by
          simp [beq_eq_false_iff_ne, hc]
        have hyq : (y == dq) = false := by
          simp [beq_eq_false_iff_ne, hy]
        have step : escapedQuotes (c :: y :: ys) = escapedQuotes (y :: ys) := by
          simp [escapedQuotes, hcq, hyq]
        rw [step, ← hE]
        exact escapedQuotes_escapeQuotes t

/-- `escapedQuotes` is preserved by taking a prefix. -/
theorem escapedQuotes_take : ∀ (l : Str) (n : Nat),
    escapedQuotes l = true → escapedQuotes (l.take n) = true
  | _, 0, _ => by simp [escapedQuotes]
  | [], _ + 1, _ => by simp [escapedQuotes]
  | [c], n + 1, h => by
    simpa [List.take] using h
  | c :: c2 :: rest, n + 1, h => by
    have hcq : (c == dq) = false := by
      by_contra hcc
      rw [Bool.not_eq_false] at hcc
      simp [escapedQuotes, hcc] at h
    cases hcond : (c == bs && c2 == dq) with
    | true =>
      have hrest : escapedQuotes rest = true := by
        rw [show escapedQuotes (c :: c2 :: rest)
              = escapedQuotes rest by simp [escapedQuotes, hcq, hcond]] at h
        exact h
      cases n with
      | zero =>
        show escapedQuotes [c] = true
        simp [escapedQuotes, hcq]
      | succ m =>
        show escapedQuotes (c :: c2 :: rest.take m) = true
        rw [show escapedQuotes (c :: c2 :: rest.take m)
              = escapedQuotes (rest.take m) by simp [escapedQuotes, hcq, hcond]]
        exact escapedQuotes_take rest m hrest
    | false =>
      have hrest : escapedQuotes (c2 :: rest) = true := by
        rw [show escapedQuotes (c :: c2 :: rest)
              = escapedQuotes (c2 :: rest) by simp [escapedQuotes, hcq, hcond]] at h
        exact h
      cases n with
      | zero =>
        show escapedQuotes [c] = true
        simp [escapedQuotes, hcq]
      | succ m =>
        show escapedQuotes (c :: c2 :: rest.take m) = true
        rw [show escapedQuotes (c :: c2 :: rest.take m)
              = escapedQuotes (c2 :: rest.take m) by simp [escapedQuotes, hcq, hcond]]
        exact escapedQuotes_take (c2 :: rest) (m + 1) hrest

/-- `trimEnd l` together with the trimmed-off suffix reassembles `l`. -/
theorem trimEnd_append (l : Str) :
    trimEnd l ++ (l.reverse.takeWhile (fun c => rustWhitespace.contains c)).reverse = l := by
  have h := List.takeWhile_append_dropWhile
    (p := fun c => rustWhitespace.contains c) (l := l.reverse)
  calc trimEnd l ++ (l.reverse.takeWhile (fun c => rustWhitespace.contains c)).reverse
      = (l.reverse.takeWhile (fun c => rustWhitespace.contains c)
          ++ l.reverse.dropWhile (fun c => rustWhitespace.contains c)).reverse := by
        rw [List.reverse_append]; rfl
    _ = l := by rw [h, List.reverse_reverse]

/-- `trimEnd l` is a prefix of `l`. -/
theorem trimEnd_isPrefix (l : Str) : trimEnd l <+: l :=
  ⟨(l.reverse.takeWhile (fun c => rustWhitespace.contains c)).reverse, trimEnd_append l⟩

/-- The formatting step is exactly trailing-whitespace trimming of the
re-escaped string. -/
theorem formatAnswer_eq_trimEnd (s : Str) :
    formatAnswer s = trimEnd (escapeQuotes (unescapeQuotes s)) := by
  have hp := List.prefix_iff_eq_take.mp (trimEnd_isPrefix (escapeQuotes (unescapeQuotes s)))
  simpa [formatAnswer] using hp.symm

/-- A non-whitespace character survives `dropWhile`. -/
theorem mem_dropWhile_of_not (p : Char → Bool) (c : Char) (hc : p c = false) :
    ∀ (l : Str), c ∈ l → c ∈ l.dropWhile p
  | a :: t, h => by
    cases hpa : p a with
    | false => simpa [List.dropWhile, hpa] using h
    | true =>
      have hmem : c ∈ t := by
        rcases List.mem_cons.mp h with h1 | h1
        · rw [h1] at hc; rw [hpa] at hc; cases hc
        · exact h1
      simpa [List.dropWhile, hpa] using mem_dropWhile_of_not p c hc t hmem

/-- A quote character survives trailing-whitespace trimming. -/
theorem dq_mem_trimEnd (l : Str) (h : dq ∈ l) : dq ∈ trimEnd l := by
  have hw : rustWhitespace.contains dq = false := by decide
  have h1 : dq ∈ l.reverse := List.mem_reverse.mpr h
  have h2 := mem_dropWhile_of_not (fun c => rustWhitespace.contains c) dq hw l.reverse h1
  exact List.mem_reverse.mpr h2

/-- C2: the result-formatting step first unescapes every backslash-quote
sequence, then escapes every quote, then trims trailing whitespace; for
every output containing a quote the delivered text still contains a
quote and every quote in it is backslash-escaped (no double escaping);
concretely `He said "hi"` is delivered as `He said \"hi\"` and an
already-escaped `\"` is delivered unchanged as `\"`. -/
theorem result_formatting_quote_escaping :
    (∀ s : Str, dq ∈ s → dq ∈ formatAnswer s ∧ escapedQuotes (formatAnswer s) = true)
    ∧ formatAnswer ("He said ".toList ++ [dq] ++ "hi".toList ++ [dq])
        = "He said ".toList ++ [bs, dq] ++ "hi".toList ++ [bs, dq]
    ∧ formatAnswer [bs, dq] = [bs, dq] := by
  refine ⟨?_, by decide, by decide⟩
  intro s hs
  have h2 := dq_mem_escapeQuotes (unescapeQuotes s) (dq_mem_unescapeQuotes s hs)
  have hE := escapedQuotes_escapeQuotes (unescapeQuotes s)
  rw [formatAnswer_eq_trimEnd]
  refine ⟨dq_mem_trimEnd _ h2, ?_⟩
  rw [List.prefix_iff_eq_take.mp (trimEnd_isPrefix (escapeQuotes (unescapeQuotes s)))]
  exact escapedQuotes_take _ _ hE

/-- C2 witness: the universally quantified part, applied to the concrete
output string `a"` (one unescaped quote). -/
theorem result_formatting_quote_escaping_witness :
    dq ∈ ("a".toList ++ [dq])
    ∧ dq ∈ formatAnswer ("a".toList ++ [dq])
    ∧ escapedQuotes (formatAnswer ("a".toList ++ [dq])) = true :=
  ⟨by decide, result_formatting_quote_escaping.1 ("a".toList ++ [dq]) (by decide)⟩

/-- A path component (a file or directory name). -/
abbrev Comp := Str

/-- Filesystem paths as lists of components. -/
abbrev Path := List Comp

/-- A filesystem entry: a directory (with a writability flag; directories
created by `create_dir_all` are writable) or a file with contents. -/
inductive EntryKind
  | dir (writable : Bool)
  | file (contents : Str)
deriving DecidableEq

/-- The filesystem: an association list from paths to entries (the first
matching entry wins). -/
abbrev FS := List (Path × EntryKind)

/-- Look up the entry at a path. -/
def findE (fs : FS) (p : Path) : Option EntryKind :=
  (fs.find? (fun e => e.1 == p)).map (fun e => e.2)

/-- Whether an optional entry is a file. -/
def isFileEntry : Option EntryKind → Bool
  | some (EntryKind.file _) => true
  | _ => false

/-- Whether an optional entry is a directory. -/
def isDirEntry : Option EntryKind → Bool
  | some (EntryKind.dir _) => true
  | _ => false

/-- `std::fs::remove_dir_all`: requires the path to exist as a
directory; removes it together with every entry below it.  On any other
state it errors (`none`). -/
def removeDirAll (p : Path) (fs : FS) : Option FS :=
  match findE fs p with
  | some (EntryKind.dir _) => some (fs.filter (fun e => !(p.isPrefixOf e.1)))
  | _ => none

/-- Worker for `std::fs::create_dir_all`: walk the components left to
right, creating each missing directory; fail if a component exists as a
file. -/
def createDirAllGo (fs : FS) (built : Path) : List Comp → Option FS
  | [] => some fs
  | c :: rest =>
    match findE fs (built ++ [c]) with
    | some (EntryKind.dir _) => createDirAllGo fs (built ++ [c]) rest
    | some (EntryKind.file _) => none
    | none => createDirAllGo ((built ++ [c], EntryKind.dir true) :: fs) (built ++ [c]) rest

/-- `std::fs::create_dir_all`. -/
def createDirAll (p : Path) (fs : FS) : Option FS := createDirAllGo fs [] p

/-- `DataHolder::clean_dir` from `src/main.rs`: `remove_dir_all` on the
working directory, then `create_dir_all`, each followed by `.unwrap()`
(a failure panics the invoking thread, modelled by `none`). -/
def clean_dir (wd : Path) (fs : FS) : Option FS :=
  (removeDirAll wd fs).bind (fun fs2 => createDirAll wd fs2)

/-- The dispatcher's handling of a Clean event (`Messages::Clean` in
`main`): `clean_dir` runs synchronously on the dispatcher thread, so a
panic inside it (`none`) aborts the dispatcher itself. -/
def dispatcherSurvivesClean (wd : Path) (fs : FS) : Bool :=
  (clean_dir wd fs).isSome

/-- A list appended on the right of itself adds nothing. -/
theorem self_append_right_nil {α : Type} {a b : List α} (h : a = a ++ b) : b = [] := by
  have hl := congrArg List.length h
  rw [List.length_append] at hl
  have hb : b.length = 0 := by omega
  exact List.length_eq_zero.mp hb

theorem findE_cons (q : Path) (k : EntryKind) (fs : FS) (p : Path) :
    findE ((q, k) :: fs) p = if q = p then some k else findE fs p := by
  by_cases h : q = p
  · subst h
    simp [findE, List.find?]
  · have hb : (q == p) = false := by simp [beq_eq_false_iff_ne, h]
    simp [findE, List.find?, h, hb]

/-- Filtering does not change a lookup whose entries are all kept. -/
theorem findE_filter_of_keep (keep : Path × EntryKind → Bool) (p : Path)
    (h : ∀ k, keep (p, k) = true) (fs : FS) :
    findE (fs.filter keep) p = findE fs p := by
  induction fs with
  | nil => rfl
  | cons e rest ih =>
    obtain ⟨q, k⟩ := e
    by_cases hp : q = p
    · subst hp
      rw [List.filter_cons_of_pos (h k), findE_cons, findE_cons, if_pos rfl, if_pos rfl]
    · cases hk : keep (q, k) with
      | true =>
        rw [List.filter_cons_of_pos hk, findE_cons, findE_cons, if_neg hp, if_neg hp]
        exact ih
      | false =>
        rw [List.filter_cons_of_neg (by simp [hk]), findE_cons, if_neg hp]
        exact ih

/-- A lookup all of whose entries are dropped by the filter yields
nothing. -/
theorem findE_filter_of_drop (keep : Path × EntryKind → Bool) (p : Path)
    (h : ∀ k, keep (p, k) = false) (fs : FS) :
    findE (fs.filter keep) p = none := by
  induction fs with
  | nil => rfl
  | cons e rest ih =>
    obtain ⟨q, k⟩ := e
    by_cases hp : q = p
    · subst hp
      rw [List.filter_cons_of_neg (by simp [h k])]
      exact ih
    · cases hk : keep (q, k) with
      | true =>
        rw [List.filter_cons_of_pos hk, findE_cons, if_neg hp]
        exact ih
      | false =>
        rw [List.filter_cons_of_neg (by simp [hk])]
        exact ih

theorem removeDirAll_some (wd : Path) (fs : FS) (w : Bool)
    (h : findE fs wd = some (EntryKind.dir w)) :
    removeDirAll wd fs = some (fs.filter (fun e => !(wd.isPrefixOf e.1))) := by
  unfold removeDirAll
  rw [h]

/-- Every entry after `createDirAllGo` is an original entry or a
directory created at a non-empty prefix of the remaining components. -/
theorem createDirAllGo_mem : ∀ (rest : List Comp) (fs : FS) (built : Path) (fs2 : FS),
    createDirAllGo fs built rest = some fs2 →
    ∀ e, e ∈ fs2 →
      e ∈ fs ∨ ∃ q, q <+: rest ∧ q ≠ [] ∧ e = (built ++ q, EntryKind.dir true)
  | [], fs, built, fs2, h, e, he => by
    simp only [createDirAllGo] at h
    obtain rfl : fs = fs2 := Option.some.inj h
    exact Or.inl he
  | c :: rest2, fs, built, fs2, h, e, he => by
    cases hf : findE fs (built ++ [c]) with
    | some k =>
      cases k with
      | dir w =>
        simp only [createDirAllGo, hf] at h
        rcases createDirAllGo_mem rest2 fs (built ++ [c]) fs2 h e he with h1 | ⟨q, hq1, hq2, hq3⟩
        · exact Or.inl h1
        · obtain ⟨t, ht⟩ := hq1
          refine Or.inr ⟨c :: q, ⟨t, by rw [List.cons_append, ht]⟩, by simp, ?_⟩
          rw [hq3, ← List.append_cons]
      | file s =>
        simp only [createDirAllGo, hf] at h
        exact Option.noConfusion h
    | none =>
      simp only [createDirAllGo, hf] at h
      rcases createDirAllGo_mem rest2 ((built ++ [c], EntryKind.dir true) :: fs)
          (built ++ [c]) fs2 h e he with h1 | ⟨q, hq1, hq2, hq3⟩
      · rcases List.mem_cons.mp h1 with h2 | h2
        · exact Or.inr ⟨[c], ⟨rest2, rfl⟩, by simp, h2⟩
        · exact Or.inl h2
      · obtain ⟨t, ht⟩ := hq1
        refine Or.inr ⟨c :: q, ⟨t, by rw [List.cons_append, ht]⟩, by simp, ?_⟩
        rw [hq3, ← List.append_cons]

/-- `createDirAllGo` creates no files: any file found afterwards was
already there. -/
theorem createDirAllGo_files : ∀ (rest : List Comp) (fs : FS) (built : Path) (fs2 : FS),
    createDirAllGo fs built rest = some fs2 →
    ∀ x s, findE fs2 x = some (EntryKind.file s) → findE fs x = some (EntryKind.file s)
  | [], fs, built, fs2, h, x, s, hx => by
    simp only [createDirAllGo] at h
    obtain rfl : fs = fs2 := Option.some.inj h
    exact hx
  | c :: rest2, fs, built, fs2, h, x, s, hx => by
    cases hf : findE fs (built ++ [c]) with
    | some k =>
      cases k with
      | dir w =>
        simp only [createDirAllGo, hf] at h
        exact createDirAllGo_files rest2 fs (built ++ [c]) fs2 h x s hx
      | file s2 =>
        simp only [createDirAllGo, hf] at h
        exact Option.noConfusion h
    | none =>
      simp only [createDirAllGo, hf] at h
      have h2 := createDirAllGo_files rest2 ((built ++ [c], EntryKind.dir true) :: fs)
        (built ++ [c]) fs2 h x s hx
      rw [findE_cons] at h2
      by_cases hbx : built ++ [c] = x
      · rw [if_pos hbx] at h2
        cases h2
      · rw [if_neg hbx] at h2
        exact h2

/-- `createDirAllGo` succeeds and ends with the target directory present
and writable, provided no strict prefix of the target is a file and the
target itself is absent. -/
theorem createDirAllGo_spec : ∀ (rest : List Comp) (fs : FS) (built : Path),
    rest ≠ [] →
    (∀ q, q <+: rest → q ≠ [] → q ≠ rest → isFileEntry (findE fs (built ++ q)) = false) →
    findE fs (built ++ rest) = none →
    ∃ fs2, createDirAllGo fs built rest = some fs2
      ∧ findE fs2 (built ++ rest) = some (EntryKind.dir true)
  | [], _, _, hne, _, _ => absurd rfl hne
  | [c], fs, built, _, _, hnone => by
    refine ⟨(built ++ [c], EntryKind.dir true) :: fs, ?_, ?_⟩
    · simp only [createDirAllGo, hnone]
    · rw [findE_cons, if_pos rfl]
  | c :: c2 :: rest3, fs, built, _, hanc, hnone => by
    have hrest2 : (c2 :: rest3 : List Comp) ≠ [] := by simp
    cases hf : findE fs (built ++ [c]) with
    | some k =>
      cases k with
      | dir w =>
        have hanc2 : ∀ q, q <+: (c2 :: rest3) → q ≠ [] → q ≠ (c2 :: rest3) →
            isFileEntry (findE fs ((built ++ [c]) ++ q)) = false := by
          intro q hq hq1 hq2
          obtain ⟨t, ht⟩ := hq
          rw [← List.append_cons]
          exact hanc (c :: q) ⟨t, by rw [List.cons_append, ht]⟩ (by simp)
            (by simp [hq2])
        have hnone2 : findE fs ((built ++ [c]) ++ (c2 :: rest3)) = none := by
          rw [← List.append_cons]
          exact hnone
        obtain ⟨fs2, hgo, hfind⟩ :=
          createDirAllGo_spec (c2 :: rest3) fs (built ++ [c]) hrest2 hanc2 hnone2
        refine ⟨fs2, ?_, ?_⟩
        · simp only [createDirAllGo, hf]
          exact hgo
        · rw [← List.append_cons] at hfind
          exact hfind
      | file s =>
        have := hanc [c] ⟨c2 :: rest3, rfl⟩ (by simp) (by simp)
        rw [hf] at this
        simp [isFileEntry] at this
    | none =>
      have hanc2 : ∀ q, q <+: (c2 :: rest3) → q ≠ [] → q ≠ (c2 :: rest3) →
          isFileEntry (findE ((built ++ [c], EntryKind.dir true) :: fs)
            ((built ++ [c]) ++ q)) = false := by
        intro q hq hq1 hq2
        rw [findE_cons]
        have hne2 : built ++ [c] ≠ (built ++ [c]) ++ q := fun hh =>
          hq1 (self_append_right_nil hh)
        rw [if_neg hne2]
        obtain ⟨t, ht⟩ := hq
        rw [← List.append_cons]
        exact hanc (c :: q) ⟨t, by rw [List.cons_append, ht]⟩ (by simp)
          (by simp [hq2])
      have hnone2 : findE ((built ++ [c], EntryKind.dir true) :: fs)
          ((built ++ [c]) ++ (c2 :: rest3)) = none := by
        rw [findE_cons]
        have hne2 : built ++ [c] ≠ (built ++ [c]) ++ (c2 :: rest3) := fun hh =>
          List.noConfusion (self_append_right_nil hh)
        rw [if_neg hne2, ← List.append_cons]
        exact hnone
      obtain ⟨fs2, hgo, hfind⟩ := createDirAllGo_spec (c2 :: rest3)
        ((built ++ [c], EntryKind.dir true) :: fs) (built ++ [c]) hrest2 hanc2 hnone2
      refine ⟨fs2, ?_, ?_⟩
      · simp only [createDirAllGo, hf]
        exact hgo
      · rw [← List.append_cons] at hfind
        exact hfind

/-- One run of `clean_dir` on a state whose working directory exists (as
a directory, with no strict ancestor being a file) succeeds and leaves
the working directory present, writable and empty, and reestablishes the
ancestor condition. -/
theorem clean_dir_spec (wd : Path) (fs : FS)
    (hne : wd ≠ [])
    (hdir : isDirEntry (findE fs wd) = true)
    (hanc : ∀ q ∈ wd.inits, q ≠ [] → q ≠ wd → isFileEntry (findE fs q) = false) :
    ∃ fs1, clean_dir wd fs = some fs1
      ∧ findE fs1 wd = some (EntryKind.dir true)
      ∧ (∀ e ∈ fs1, wd <+: e.1 → e.1 = wd)
      ∧ (∀ q ∈ wd.inits, q ≠ [] → q ≠ wd → isFileEntry (findE fs1 q) = false) := by
  obtain ⟨w, hw⟩ : ∃ w, findE fs wd = some (EntryKind.dir w) := by
    cases hfw : findE fs wd with
    | none => rw [hfw] at hdir; simp [isDirEntry] at hdir
    | some k =>
      cases k with
      | dir w => exact ⟨w, rfl⟩
      | file s => rw [hfw] at hdir; simp [isDirEntry] at hdir
  have hrm := removeDirAll_some wd fs w hw
  have hnoneR : findE (fs.filter (fun e => !(wd.isPrefixOf e.1))) wd = none := by
    refine findE_filter_of_drop _ wd (fun k => ?_) fs
    simp [List.isPrefixOf_iff_prefix]
  have hancR : ∀ q, q <+: wd → q ≠ [] → q ≠ wd →
      isFileEntry (findE (fs.filter (fun e => !(wd.isPrefixOf e.1))) q) = false := by
    intro q hq hq1 hq2
    have hnp : ¬ (wd <+: q) := by
      intro hcontra
      exact hq2 (hq.eq_of_length (Nat.le_antisymm hq.length_le hcontra.length_le))
    have hkeep : ∀ k, (fun e : Path × EntryKind => !(wd.isPrefixOf e.1)) (q, k) = true := by
      intro k
      simp only [Bool.not_eq_eq_eq_not, Bool.not_true, Bool.eq_false_iff, ne_eq,
        List.isPrefixOf_iff_prefix]
      exact hnp
    rw [findE_filter_of_keep _ q hkeep fs]
    exact hanc q ((List.mem_inits q wd).mpr hq) hq1 hq2
  obtain ⟨fs1, hgo, hfind⟩ := createDirAllGo_spec wd
      (fs.filter (fun e => !(wd.isPrefixOf e.1))) [] hne
      (by intro q hq hq1 hq2; rw [List.nil_append]; exact hancR q hq hq1 hq2)
      (by rw [List.nil_append]; exact hnoneR)
  rw [List.nil_append] at hfind
  refine ⟨fs1, ?_, hfind, ?_, ?_⟩
  · simp [clean_dir, hrm, createDirAll, hgo]
  · intro e he hpre
    rcases createDirAllGo_mem wd _ [] fs1 hgo e he with h1 | ⟨q, hq1, hq2, hq3⟩
    · have hkept := (List.mem_filter.mp h1).2
      rw [Bool.not_eq_eq_eq_not] at hkept
      simp only [Bool.not_true] at hkept
      rw [← List.isPrefixOf_iff_prefix] at hpre
      rw [hpre] at hkept
      cases hkept
    · have he1 : e.1 = q := by rw [hq3]; simp
      rw [he1] at hpre ⊢
      exact hq1.eq_of_length (Nat.le_antisymm hq1.length_le hpre.length_le)
  · intro q hq hq1 hq2
    cases hfq : findE fs1 q with
    | none => simp [isFileEntry]
    | some k =>
      cases k with
      | dir w2 => simp [isFileEntry]
      | file s =>
        have hfile := createDirAllGo_files wd _ [] fs1 hgo q s hfq
        have := hancR q ((List.mem_inits q wd).mp hq) hq1 hq2
        rw [hfile] at this
        simp [isFileEntry] at this

/-- Example working-directory path. -/
def wdEx : Path := ["c".toList, "sniprun".toList]

/-- Example filesystem state: the working directory exists, is populated
by a previous run, and its parent exists. -/
def fsEx : FS :=
  [(["c".toList], EntryKind.dir true),
   (wdEx, EntryKind.dir true),
   (wdEx ++ ["rust_original".toList], EntryKind.dir true),
   (wdEx ++ ["rust_original".toList, "main.rs".toList], EntryKind.file "fn".toList)]

/-- C7: running Clean twice in succession from a state in which the
working directory exists succeeds both times and leaves the working
directory present, empty and writable after each run. -/
theorem clean_dir_idempotent (wd : Path) (fs : FS)
    (hne : wd ≠ [])
    (hdir : isDirEntry (findE fs wd) = true)
    (hanc : ∀ q ∈ wd.inits, q ≠ [] → q ≠ wd → isFileEntry (findE fs q) = false) :
    ∃ fs1 fs2, clean_dir wd fs = some fs1 ∧ clean_dir wd fs1 = some fs2
      ∧ (findE fs1 wd = some (EntryKind.dir true) ∧ ∀ e ∈ fs1, wd <+: e.1 → e.1 = wd)
      ∧ (findE fs2 wd = some (EntryKind.dir true) ∧ ∀ e ∈ fs2, wd <+: e.1 → e.1 = wd) := by
  obtain ⟨fs1, h1, hf1, hemp1, hanc1⟩ := clean_dir_spec wd fs hne hdir hanc
  obtain ⟨fs2, h2, hf2, hemp2, _⟩ := clean_dir_spec wd fs1 hne (by rw [hf1]; rfl) hanc1
  exact ⟨fs1, fs2, h1, h2, ⟨hf1, hemp1⟩, ⟨hf2, hemp2⟩⟩

/-- C7 witness: the idempotence theorem applied to a concrete populated
cache directory. -/
theorem clean_dir_idempotent_witness :
    ∃ fs1 fs2, clean_dir wdEx fsEx = some fs1 ∧ clean_dir wdEx fs1 = some fs2
      ∧ (findE fs1 wdEx = some (EntryKind.dir true) ∧ ∀ e ∈ fs1, wdEx <+: e.1 → e.1 = wdEx)
      ∧ (findE fs2 wdEx = some (EntryKind.dir true) ∧ ∀ e ∈ fs2, wdEx <+: e.1 → e.1 = wdEx) :=
  clean_dir_idempotent wdEx fsEx (by decide) (by decide) (by decide)

/-- C8 counterexample: with the working directory missing from the
filesystem (for example deleted externally), the synchronous Clean
handling panics — `remove_dir_all(..).unwrap()` fails — and the
dispatcher does not survive, contradicting the claim that no
synchronously-run operation can abort the dispatcher on a filesystem
fault. -/
theorem clean_dispatch_fault_counterexample :
    dispatcherSurvivesClean wdEx [] = false := by decide

/-- C8 (amended): a filesystem fault in the synchronous Clean operation
aborts the dispatcher: whenever the working directory is not present as
a directory, `clean_dir` panics on the dispatcher thread. -/
theorem clean_dispatch_fault_aborts_dispatcher (wd : Path) (fs : FS)
    (h : isDirEntry (findE fs wd) = false) :
    dispatcherSurvivesClean wd fs = false := by
  unfold dispatcherSurvivesClean clean_dir removeDirAll
  cases hf : findE fs wd with
  | none => simp
  | some k =>
    cases k with
    | dir w => rw [hf] at h; simp [isDirEntry] at h
    | file s => simp

/-- C8 amended-claim witness: the working directory exists as a file, so
the dispatcher's Clean handling panics. -/
theorem clean_dispatch_fault_aborts_dispatcher_witness :
    dispatcherSurvivesClean wdEx [(wdEx, EntryKind.file [])] = false :=
  clean_dispatch_fault_aborts_dispatcher wdEx [(wdEx, EntryKind.file [])] (by decide)

/-- The observable outcome of a terminated process: exit status and the
captured output byte streams (`status = 0` is success). -/
structure ProcessOutput where
  status : Nat
  stdout : List Nat
  stderr : List Nat
deriving DecidableEq

/-- A UTF-8 continuation byte. -/
def isCont (b : Nat) : Bool := 0x80 ≤ b && b ≤ 0xBF

/-- Rust `String::from_utf8`: strict UTF-8 decoding of a byte stream
(rejecting overlong forms, surrogates and values above U+10FFFF),
returning the decoded characters or `none` on invalid input. -/
def utf8Decode : List Nat → Option Str
  | [] => some []
  | b :: rest =>
    if b ≤ 0x7F then
      match utf8Decode rest with
      | some cs => some (Char.ofNat b :: cs)
      | none => none
    else if 0xC2 ≤ b && b ≤ 0xDF then
      match rest with
      | b1 :: rest1 =>
        if isCont b1 then
          match utf8Decode rest1 with
          | some cs => some (Char.ofNat ((b - 0xC0) * 0x40 + (b1 - 0x80)) :: cs)
          | none => none
        else none
      | [] => none
    else if 0xE0 ≤ b && b ≤ 0xEF then
      match rest with
      | b1 :: b2 :: rest2 =>
        if (if b = 0xE0 then 0xA0 ≤ b1 && b1 ≤ 0xBF
            else if b = 0xED then 0x80 ≤ b1 && b1 ≤ 0x9F
            else isCont b1) && isCont b2 then
          match utf8Decode rest2 with
          | some cs =>
            some (Char.ofNat ((b - 0xE0) * 0x1000 + (b1 - 0x80) * 0x40 + (b2 - 0x80)) :: cs)
          | none => none
        else none
      | _ => none
    else if 0xF0 ≤ b && b ≤ 0xF4 then
      match rest with
      | b1 :: b2 :: b3 :: rest3 =>
        if (if b = 0xF0 then 0x90 ≤ b1 && b1 ≤ 0xBF
            else if b = 0xF4 then 0x80 ≤ b1 && b1 ≤ 0x8F
            else isCont b1) && isCont b2 && isCont b3 then
          match utf8Decode rest3 with
          | some cs =>
            some (Char.ofNat ((b - 0xF0) * 0x40000 + (b1 - 0x80) * 0x1000
              + (b2 - 0x80) * 0x40 + (b3 - 0x80)) :: cs)
          | none => none
        else none
      | _ => none
    else none

/-- Split a string path into components at `'/'`. -/
def splitPath (s : Str) : Path := s.splitOn '/'

/-- `File::create` followed by `fs::write` (used by `build`): requires
the parent directory to exist and the target not to be a directory;
replaces any existing file at the path.  A failure panics the invoking
thread (`expect`), modelled by `none`. -/
def writeFileFS (p : Path) (contents : Str) (fs : FS) : Option FS :=
  match findE fs p.dropLast with
  | some (EntryKind.dir _) =>
    match findE fs p with
    | some (EntryKind.dir _) => none
    | _ => some ((p, EntryKind.file contents) :: fs.filter (fun e => !(e.1 == p)))
  | _ => none

/-- `Rust_original::build`: write the staged code to the staged source
file (`File::create` + `write`, panicking on a filesystem fault), run
`rustc` (whose observable outcome is `tc`), and return `Ok` on exit
status zero or `CompilationError` with empty diagnostic text on non-zero
exit. -/
def build (i : Rust_original) (fs : FS) (tc : ProcessOutput) :
    Option (FS × Except SniprunError Unit) :=
  match writeFileFS (splitPath i.main_file_path) i.code fs with
  | none => none
  | some fs2 =>
    if tc.status = 0 then some (fs2, Except.ok ())
    else some (fs2, Except.error (SniprunError.CompilationError []))

/-- `Rust_original::execute`: run the produced binary (whose observable
outcome is `o`); on exit status zero return the decoded standard output,
otherwise `RuntimeError` with the decoded standard error.  The decoding
is `String::from_utf8(..).unwrap()`: invalid UTF-8 panics, modelled by
`none`. -/
def execute (i : Rust_original) (o : ProcessOutput) : Option (Except SniprunError Str) :=
  if o.status = 0 then
    match utf8Decode o.stdout with
    | some s => some (Except.ok s)
    | none => none
  else
    match utf8Decode o.stderr with
    | some s => some (Except.error (SniprunError.RuntimeError s))
    | none => none

/-- C5: build returns a CompilationError exactly when the toolchain
exits with non-zero status, and success exactly on status zero; the
carried diagnostic text is always empty for the Rust backend. -/
theorem build_exit_status_characterization (i : Rust_original) (fs : FS)
    (tc : ProcessOutput) (fs2 : FS) (r : Except SniprunError Unit)
    (h : build i fs tc = some (fs2, r)) :
    (r = Except.error (SniprunError.CompilationError []) ↔ tc.status ≠ 0)
    ∧ (r = Except.ok () ↔ tc.status = 0) := by
  unfold build at h
  cases hw : writeFileFS (splitPath i.main_file_path) i.code fs with
  | none =>
    simp only [hw] at h
    exact Option.noConfusion h
  | some fs3 =>
    simp only [hw] at h
    by_cases hs : tc.status = 0
    · rw [if_pos hs] at h
      have h2 : r = Except.ok () := (congrArg Prod.snd (Option.some.inj h)).symm
      subst h2
      refine ⟨⟨fun hc => absurd hc (by simp), fun hc => absurd hs hc⟩,
        ⟨fun _ => hs, fun _ => rfl⟩⟩
    · rw [if_neg hs] at h
      have h2 : r = Except.error (SniprunError.CompilationError []) :=
        (congrArg Prod.snd (Option.some.inj h)).symm
      subst h2
      refine ⟨⟨fun _ => hs, fun _ => rfl⟩,
        ⟨fun hc => absurd hc (by simp), fun hc => absurd hc hs⟩⟩

/-- The path of the staged source file of the example instance. -/
def mainFilePathEx : Path := splitPath iTab.main_file_path

/-- A filesystem in which the example instance's working directory
exists, so the staged-source write succeeds. -/
def fsBuild : FS := [(mainFilePathEx.dropLast, EntryKind.dir true)]

/-- The state after the example build wrote its staged source file. -/
def fsBuilt : FS := (mainFilePathEx, EntryKind.file []) :: fsBuild

/-- A failing toolchain outcome. -/
def tcFail : ProcessOutput := ⟨101, [], []⟩

/-- C5 witness: the characterization applied to a concrete failing
toolchain run. -/
theorem build_exit_status_characterization_witness :
    ((Except.error (SniprunError.CompilationError []) : Except SniprunError Unit)
        = Except.error (SniprunError.CompilationError []) ↔ tcFail.status ≠ 0)
    ∧ ((Except.error (SniprunError.CompilationError []) : Except SniprunError Unit)
        = Except.ok () ↔ tcFail.status = 0) :=
  build_exit_status_characterization iTab fsBuild tcFail fsBuilt
    (Except.error (SniprunError.CompilationError [])) (by decide)

/-- C10: execute can abort the invoking unit without producing any
`ExecutionResult` even though the artifact process itself terminated:
with exit status zero and a standard output that is not valid UTF-8 (the
single byte 0xFF), the `String::from_utf8(..).unwrap()` panics. -/
theorem execute_panics_on_invalid_utf8 :
    execute iTab ⟨0, [0xFF], []⟩ = none
    ∧ (⟨0, [0xFF], []⟩ : ProcessOutput).status = 0 :=
  ⟨by decide, rfl⟩

/-- C6 counterexample: a terminated artifact process (status 0, stdout
the invalid byte 0xFF) on which execute returns no success value at all,
refuting that execute returns the captured standard output as text
exactly when the process exits with status zero. -/
theorem execute_invalid_utf8_counterexample :
    ¬ ∃ s, execute iTab ⟨0, [0xFF], []⟩ = some (Except.ok s) := by
  rintro ⟨s, hs⟩
  rw [show execute iTab ⟨0, [0xFF], []⟩ = none by decide] at hs
  exact Option.noConfusion hs

/-- C6 (amended): for a terminated artifact process whose relevant
captured stream is valid UTF-8, execute returns the decoded standard
output exactly when the exit status is zero, and a RuntimeError carrying
the decoded standard error exactly when the status is non-zero. -/
theorem execute_exit_status_characterization (i : Rust_original) (o : ProcessOutput) :
    (∀ s, utf8Decode o.stdout = some s →
      (execute i o = some (Except.ok s) ↔ o.status = 0))
    ∧ (∀ s, utf8Decode o.stderr = some s →
      (execute i o = some (Except.error (SniprunError.RuntimeError s)) ↔ o.status ≠ 0)) := by
  constructor
  · intro s hs
    by_cases h0 : o.status = 0
    · simp [execute, h0, hs]
    · simp only [execute, if_neg h0]
      cases hd : utf8Decode o.stderr with
      | none => simp [h0]
      | some t => simp [h0]
  · intro s hs
    by_cases h0 : o.status = 0
    · simp only [execute, if_pos h0]
      cases hd : utf8Decode o.stdout with
      | none => simp [h0]
      | some t => simp [h0]
    · simp [execute, h0, hs]

/-- A successful artifact outcome printing `hi`. -/
def oHi : ProcessOutput := ⟨0, [104, 105], []⟩

/-- C6 amended-claim witness at a concrete terminated process with valid
UTF-8 output. -/
theorem execute_exit_status_characterization_witness :
    execute iTab oHi = some (Except.ok "hi".toList) :=
  ((execute_exit_status_characterization iTab oHi).1 "hi".toList (by decide)).mpr rfl

/-- The pipeline steps, used to trace what the Launcher constructed and
invoked. -/
inductive Stage
  | construct
  | fetch
  | boilerplate
  | build
  | execute
deriving DecidableEq

/-- The Backend Registry's alias table: the filetype aliases declared by
the one registered backend (`Rust_original::get_supported_languages`). -/
def registryAliases : List Str := get_supported_languages

/-- Modelled from the spec: the Launcher (`src/launcher.rs` is not among
the provided sources).  `select_and_run` looks `ctx.filetype` up in the
Registry by exact alias match; if absent it fails with an
unsupported-language error naming the filetype, constructing no backend
and invoking no pipeline stage; otherwise it constructs the backend
bound to the context at the backend's maximum support level and drives
the four stages in order, short-circuiting at the first failure.  The
second component is the trace of construction and invoked stages; `fs`
is the filesystem, `tc` and `art` the observable outcomes of the
toolchain and artifact processes; `none` models a panic of the unit. -/
def select_and_run (d : DataHolder) (fs : FS) (tc art : ProcessOutput) :
    Option (Except SniprunError Str) × List Stage :=
  if d.filetype ∈ registryAliases then
    let i0 := new_with_level d get_max_support_level
    match fetch_code i0 with
    | Except.error e => (some (Except.error e), [Stage.construct, Stage.fetch])
    | Except.ok i1 =>
      match add_boilerplate i1 with
      | Except.error e =>
        (some (Except.error e), [Stage.construct, Stage.fetch, Stage.boilerplate])
      | Except.ok i2 =>
        match build i2 fs tc with
        | none => (none, [Stage.construct, Stage.fetch, Stage.boilerplate, Stage.build])
        | some (_, Except.error e) =>
          (some (Except.error e),
            [Stage.construct, Stage.fetch, Stage.boilerplate, Stage.build])
        | some (_, Except.ok ()) =>
          match execute i2 art with
          | none =>
            (none, [Stage.construct, Stage.fetch, Stage.boilerplate, Stage.build, Stage.execute])
          | some r =>
            (some r, [Stage.construct, Stage.fetch, Stage.boilerplate, Stage.build, Stage.execute])
  else (some (Except.error (SniprunError.UnsupportedLanguage d.filetype)), [])

/-- C4: for a filetype matching no alias in the Registry, select_and_run
returns an UnsupportedLanguage error naming the filetype, and the trace
is empty: no backend instance is constructed and no pipeline stage is
invoked. -/
theorem select_and_run_unsupported_language (d : DataHolder) (fs : FS)
    (tc art : ProcessOutput) (h : d.filetype ∉ registryAliases) :
    select_and_run d fs tc art
      = (some (Except.error (SniprunError.UnsupportedLanguage d.filetype)), []) := by
  unfold select_and_run
  rw [if_neg h]

/-- C4 witness at the unregistered filetype `python`. -/
theorem select_and_run_unsupported_language_witness :
    select_and_run { dTab with filetype := "python".toList } [] ⟨0, [], []⟩ ⟨0, [], []⟩
      = (some (Except.error (SniprunError.UnsupportedLanguage "python".toList)), []) :=
  select_and_run_unsupported_language
    { dTab with filetype := "python".toList } [] ⟨0, [], []⟩ ⟨0, [], []⟩ (by decide)

/-- Resolve a Neovim buffer index: negative indices count from past the
end (`length + 1 + index`). -/
def nvimResolveIndex (n i : Int) : Int := if i < 0 then n + 1 + i else i

/-- `nvim_buf_get_lines` (reached through `Buffer::get_lines`): 0-based,
end-exclusive; with `strict` indexing the call errors on out-of-range
indices, otherwise they are clamped to the buffer. -/
def nvimBufGetLines (buf : List Str) (s e : Int) (strict : Bool) : Option (List Str) :=
  let n : Int := buf.length
  let s1 := nvimResolveIndex n s
  let e1 := nvimResolveIndex n e
  if strict = true ∧ (n < s1 ∨ n < e1) then none
  else
    let s2 := min (max s1 0) n
    let e2 := min (max e1 0) n
    some ((buf.take e2.toNat).drop s2.toNat)

/-- The bloc-capture step of `EventHandler::fill_data`: request lines
`range[0] - 1` (inclusive) to `range[1]` (exclusive), 0-based,
non-strict, and join the captured lines with newlines. -/
def captureBloc (buf : List Str) (range : Int × Int) : Option Str :=
  (nvimBufGetLines buf (range.1 - 1) range.2 false).map
    (fun ls => List.intercalate ['\n'] ls)

/-- C9: for a valid 1-based inclusive range `[a, b]`, fill_data's
conversion (requesting lines `a-1` through `b` in the host's 0-based
end-exclusive indexing) captures exactly the lines `a..b` inclusive —
the slice has length `b - a + 1` and its k-th line is buffer line
`a - 1 + k` — joined with newlines. -/
theorem fill_data_line_range_conversion (buf : List Str) (a b : Int)
    (h1 : 1 ≤ a) (h2 : a ≤ b) (h3 : b ≤ (buf.length : Int)) :
    nvimBufGetLines buf (a - 1) b false
        = some ((buf.drop (a - 1).toNat).take (b - a + 1).toNat)
    ∧ ((buf.drop (a - 1).toNat).take (b - a + 1).toNat).length = (b - a + 1).toNat
    ∧ (∀ k : Nat, k < (b - a + 1).toNat →
        ((buf.drop (a - 1).toNat).take (b - a + 1).toNat)[k]? = buf[(a - 1).toNat + k]?)
    ∧ captureBloc buf (a, b)
        = some (List.intercalate ['\n'] ((buf.drop (a - 1).toNat).take (b - a + 1).toNat)) := by
  have hs1 : nvimResolveIndex (buf.length : Int) (a - 1) = a - 1 := by
    unfold nvimResolveIndex
    rw [if_neg (by omega)]
  have he1 : nvimResolveIndex (buf.length : Int) b = b := by
    unfold nvimResolveIndex
    rw [if_neg (by omega)]
  have hmain : nvimBufGetLines buf (a - 1) b false
      = some ((buf.drop (a - 1).toNat).take (b - a + 1).toNat) := by
    unfold nvimBufGetLines
    rw [if_neg (by simp)]
    rw [hs1, he1]
    have hs2 : min (max (a - 1) 0) (buf.length : Int) = a - 1 := by omega
    have he2 : min (max b 0) (buf.length : Int) = b := by omega
    rw [hs2, he2]
    show some (List.drop (a - 1).toNat (List.take b.toNat buf))
      = some (List.take (b - a + 1).toNat (List.drop (a - 1).toNat buf))
    rw [List.drop_take]
    have hcount : b.toNat - (a - 1).toNat = (b - a + 1).toNat := by omega
    rw [hcount]
  refine ⟨hmain, ?_, ?_, ?_⟩
  · rw [List.length_take, List.length_drop]
    omega
  · intro k hk
    rw [List.getElem?_take_of_lt hk, List.getElem?_drop]
  · unfold captureBloc
    simp only [hmain]
    rfl

/-- A three-line example buffer. -/
def buf3 : List Str := ["let x = 1;".toList, "print(x);".toList, "done".toList]

/-- C9 witness: capturing the inclusive range [1, 2] of a three-line
buffer. -/
theorem fill_data_line_range_conversion_witness :
    nvimBufGetLines buf3 (1 - 1) 2 false
        = some ((buf3.drop ((1 : Int) - 1).toNat).take ((2 : Int) - 1 + 1).toNat)
    ∧ ((buf3.drop ((1 : Int) - 1).toNat).take ((2 : Int) - 1 + 1).toNat).length
        = ((2 : Int) - 1 + 1).toNat
    ∧ (∀ k : Nat, k < ((2 : Int) - 1 + 1).toNat →
        ((buf3.drop ((1 : Int) - 1).toNat).take ((2 : Int) - 1 + 1).toNat)[k]?
          = buf3[((1 : Int) - 1).toNat + k]?)
    ∧ captureBloc buf3 (1, 2)
        = some (List.intercalate ['\n']
            ((buf3.drop ((1 : Int) - 1).toNat).take ((2 : Int) - 1 + 1).toNat)) :=
  fill_data_line_range_conversion buf3 1 2 (by decide) (by decide) (by decide)

end Sniprun
